import Mathlib

/-!
Verification of the safe-editing pipeline of the "Edit Desktop Files"
GNOME Shell extension (`extension.js`).

File contents are modelled as lists of characters (`Str`), so that the
byte-level concatenations performed by the JavaScript code (`replace_contents`
followed by `append_to` writes) are plain list appends.  The line-oriented
helpers of `EditingFileManager` (`split('\n')`, `join('\n')`, `startsWith`,
`trim`) are embedded as executable functions below, and the stateful parts of
the manager (tracking sets, the temporary files, the local applications
directory) are embedded as explicit state-passing functions over a record of
association lists.
-/

namespace EditDesktopFiles

/-- A file content / string, as a list of characters. -/
abbrev Str := List Char

/-- Coerce a Lean string literal into the character-list model. -/
def str (s : String) : Str := s.toList

/-! ### Splitting and joining on a separator character

`splitCh sep` is JavaScript's `String.prototype.split(sep)` for a one-character
separator; `joinCh sep` is `Array.prototype.join(sep)`. -/

/-- Split a character list at every occurrence of `sep`.
Mirrors JavaScript `text.split(sep)`: the result is always non-empty and the
separator occurs in no fragment. -/
def splitCh (sep : Char) : List Char → List (List Char)
  | [] => [[]]
  | c :: rest =>
    let r := splitCh sep rest
    if c = sep then [] :: r
    else (c :: r.headD []) :: r.tail

/-- Join fragments with a separator character.
Mirrors JavaScript `fragments.join(sep)`. -/
def joinCh (sep : Char) : List (List Char) → List Char
  | [] => []
  | [l] => l
  | l :: ls => l ++ sep :: joinCh sep ls

theorem splitCh_nil (sep : Char) : splitCh sep [] = [[]] := rfl

theorem splitCh_cons_sep (sep : Char) (rest : List Char) :
    splitCh sep (sep :: rest) = [] :: splitCh sep rest := by
  simp [splitCh]

theorem splitCh_ne_nil (sep : Char) (s : List Char) : splitCh sep s ≠ [] := by
  induction s with
  | nil => simp [splitCh]
  | cons c rest ih =>
    simp only [splitCh]
    by_cases hc : c = sep
    · simp [hc]
    · simp [hc]

theorem splitCh_cons_ne (sep c : Char) (rest : List Char) (hc : c ≠ sep) :
    splitCh sep (c :: rest) =
      (c :: (splitCh sep rest).headD []) :: (splitCh sep rest).tail := by
  simp [splitCh, hc]

theorem joinCh_cons_cons (sep : Char) (l l' : List Char) (ls : List (List Char)) :
    joinCh sep (l :: l' :: ls) = l ++ sep :: joinCh sep (l' :: ls) := rfl

theorem joinCh_cons_of_ne_nil (sep : Char) (l : List Char) (ls : List (List Char))
    (h : ls ≠ []) : joinCh sep (l :: ls) = l ++ sep :: joinCh sep ls := by
  cases ls with
  | nil => exact absurd rfl h
  | cons l' ls' => rfl

/-- Joining the fragments produced by `splitCh` restores the original list. -/
theorem joinCh_splitCh (sep : Char) (s : List Char) :
    joinCh sep (splitCh sep s) = s := by
  induction s with
  | nil => rfl
  | cons c rest ih =>
    by_cases hc : c = sep
    · subst hc
      rw [splitCh_cons_sep, joinCh_cons_of_ne_nil _ _ _ (splitCh_ne_nil _ _), ih]
      rfl
    · rw [splitCh_cons_ne _ _ _ hc]
      cases hr : splitCh sep rest with
      | nil => exact absurd hr (splitCh_ne_nil _ _)
      | cons l ls =>
        cases ls with
        | nil =>
          simp only [List.headD, List.tail]
          have : joinCh sep [c :: l] = c :: l := rfl
          rw [this]
          have hjoin : joinCh sep (splitCh sep rest) = rest := ih
          rw [hr] at hjoin
          simp only [joinCh] at hjoin
          rw [hjoin]
        | cons l' ls' =>
          simp only [List.headD, List.tail]
          rw [joinCh_cons_of_ne_nil _ _ _ (by simp)]
          have hjoin : joinCh sep (splitCh sep rest) = rest := ih
          rw [hr, joinCh_cons_of_ne_nil _ _ _ (by simp)] at hjoin
          simp only [List.cons_append, ← hjoin]

/-- Splitting distributes over an explicit separator occurrence. -/
theorem splitCh_append (sep : Char) (a b : List Char) :
    splitCh sep (a ++ sep :: b) = splitCh sep a ++ splitCh sep b := by
  induction a with
  | nil => simp [splitCh_cons_sep, splitCh_nil]
  | cons c a' ih =>
    by_cases hc : c = sep
    · subst hc
      simp only [List.cons_append, splitCh_cons_sep, ih, List.append_assoc]
    · simp only [List.cons_append, splitCh_cons_ne _ _ _ hc, ih]
      cases ha : splitCh sep a' with
      | nil => exact absurd ha (splitCh_ne_nil _ _)
      | cons l ls => simp

/-- No fragment produced by `splitCh` contains the separator. -/
theorem not_mem_splitCh (sep : Char) (s : List Char) :
    ∀ l ∈ splitCh sep s, sep ∉ l := by
  induction s with
  | nil => intro l hl; simp [splitCh_nil] at hl; simp [hl]
  | cons c rest ih =>
    intro l hl
    by_cases hc : c = sep
    · subst hc
      rw [splitCh_cons_sep] at hl
      rcases List.mem_cons.1 hl with h | h
      · simp [h]
      · exact ih l h
    · rw [splitCh_cons_ne _ _ _ hc] at hl
      rcases List.mem_cons.1 hl with h | h
      · subst h
        intro hmem
        rcases List.mem_cons.1 hmem with h | h
        · exact hc h.symm
        · cases hr : splitCh sep rest with
          | nil => exact absurd hr (splitCh_ne_nil _ _)
          | cons l' ls' =>
            rw [hr] at h
            exact ih l' (by rw [hr]; exact List.mem_cons_self _ _) h
      · cases hr : splitCh sep rest with
        | nil => exact absurd hr (splitCh_ne_nil _ _)
        | cons l' ls' =>
          rw [hr] at h
          exact ih l (by rw [hr]; exact List.mem_cons_of_mem _ h)

/-- A list without the separator splits into the single fragment itself. -/
theorem splitCh_of_not_mem (sep : Char) (l : List Char) (h : sep ∉ l) :
    splitCh sep l = [l] := by
  induction l with
  | nil => rfl
  | cons c rest ih =>
    have hc : c ≠ sep := fun hcc => h (hcc ▸ List.mem_cons_self _ _)
    have hrest : sep ∉ rest := fun hm => h (List.mem_cons_of_mem _ hm)
    rw [splitCh_cons_ne _ _ _ hc, ih hrest]
    rfl

/-- Splitting the join of separator-free, non-empty fragment lists restores
the fragments. -/
theorem splitCh_joinCh (sep : Char) (ls : List (List Char)) (h : ls ≠ [])
    (hn : ∀ l ∈ ls, sep ∉ l) : splitCh sep (joinCh sep ls) = ls := by
  induction ls with
  | nil => exact absurd rfl h
  | cons l ls' ih =>
    cases ls' with
    | nil =>
      have : joinCh sep [l] = l := rfl
      rw [this, splitCh_of_not_mem _ _ (hn l (List.mem_cons_self _ _))]
    | cons l' ls'' =>
      rw [joinCh_cons_of_ne_nil _ _ _ (by simp), splitCh_append,
        splitCh_of_not_mem _ _ (hn l (List.mem_cons_self _ _)),
        ih (by simp) (fun x hx => hn x (List.mem_cons_of_mem _ hx))]
      rfl

theorem joinCh_append (sep : Char) (xs ys : List (List Char)) (hx : xs ≠ [])
    (hy : ys ≠ []) :
    joinCh sep (xs ++ ys) = joinCh sep xs ++ sep :: joinCh sep ys := by
  induction xs with
  | nil => exact absurd rfl hx
  | cons x xs' ih =>
    cases xs' with
    | nil =>
      simp only [List.singleton_append]
      rw [joinCh_cons_of_ne_nil _ _ _ hy]
      rfl
    | cons x' xs'' =>
      rw [List.cons_append, joinCh_cons_of_ne_nil _ _ _ (by simp),
        joinCh_cons_cons, ih (by simp), List.append_assoc]
      rfl

/-! ### Line-oriented helpers of `EditingFileManager`

These embed, character for character, the pure string processing of
`extension.js`: `_formatAsEdfComments`, `_formatHelpComments`,
`_formatErrorComments`, `_filterEdfComments`, the content written by
`createForEditing` and `_recreateFileWithErrors`, and `isEmptyContent`. -/

/-- Splitting on newline: `text.split('\n')`. -/
abbrev splitNl : Str → List Str := splitCh '\n'

/-- Joining with newline: `lines.join('\n')`. -/
abbrev joinNl : List Str → Str := joinCh '\n'

/-- Whitespace in the sense of JavaScript `String.prototype.trim`:
ASCII whitespace, NBSP, BOM, Unicode space separators and line terminators. -/
def isJsWs (c : Char) : Bool :=
  c = ' ' || c = '\t' || c = '\n' || c = '\r' ||
  c.toNat = 0x0B || c.toNat = 0x0C || c.toNat = 0xA0 || c.toNat = 0x1680 ||
  (0x2000 ≤ c.toNat && c.toNat ≤ 0x200A) ||
  c.toNat = 0x2028 || c.toNat = 0x2029 || c.toNat = 0x202F ||
  c.toNat = 0x205F || c.toNat = 0x3000 || c.toNat = 0xFEFF

/-- JavaScript `s.trim()`: strip leading and trailing whitespace. -/
def jsTrim (s : Str) : Str :=
  ((s.dropWhile isJsWs).reverse.dropWhile isJsWs).reverse

/-- JavaScript `line.startsWith('#EDF#')`: the reserved annotation marker. -/
def startsWithMarker : Str → Bool
  | '#' :: 'E' :: 'D' :: 'F' :: '#' :: _ => true
  | _ => false

/-- One output line of `_formatAsEdfComments`:
`line.trim() ? `#EDF#${prefix} ` + line : '#EDF#'`. -/
def edfLine (tag line : Str) : Str :=
  if (jsTrim line).isEmpty then str "#EDF#"
  else str "#EDF#" ++ tag ++ [' '] ++ line

/-- `_formatAsEdfComments(text, prefix)`: prefix each line with the marker
(and optional sub-tag), rejoin, and append the `'\n\n'` terminator. -/
def formatAsEdfComments (text tag : Str) : Str :=
  joinNl ((splitNl text).map (edfLine tag)) ++ ['\n', '\n']

/-- `_formatErrorComments(errors)`: the error block written on validation
failure, `_formatAsEdfComments(errors.join('\n'), 'ERROR:')`. -/
def formatErrorComments (errors : List Str) : Str :=
  formatAsEdfComments (joinNl errors) (str "ERROR:")

/-- `_formatHelpComments(text, file_name)`: format the help text as marker
comments and splice `#EDF# @File: <name>` in as the second line. -/
def formatHelpComments (text fileName : Str) : Str :=
  let lines := splitNl (formatAsEdfComments text [])
  joinNl (lines.take 1 ++ (str "#EDF# @File: " ++ fileName) :: lines.drop 1)

/-- `_filterEdfComments(text)`: drop every line that starts with the marker. -/
def filterEdfComments (text : Str) : Str :=
  joinNl ((splitNl text).filter (fun line => ! startsWithMarker line))

/-- `GLib.path_get_basename`-style base name: the last `/`-separated
component of a path (as used via `originalFile.get_basename()`). -/
def basename (p : Str) : Str := (splitCh '/' p).getLastD []

/-- The bytes `createForEditing` leaves in the intermediate file when the help
text is non-empty: the formatted help header written by `replace_contents`,
then — when `load_contents` on the original succeeds — the original bytes
appended via `append_to`. -/
def createForEditingContent (helpText fileName : Str) (orig : Option Str) : Str :=
  formatHelpComments helpText fileName ++ orig.getD []

/-- The bytes `_recreateFileWithErrors` leaves in the file: fresh help header,
then the formatted error block, then the user's previous content with
annotation lines filtered out. -/
def recreateWithErrorsContent (oldContent : Str) (errors : List Str)
    (helpText fileName : Str) : Str :=
  formatHelpComments helpText fileName ++
    (formatErrorComments errors ++ filterEdfComments oldContent)

/-- `isEmptyContent(file)` on loaded content: true when the
annotation-filtered content trims to the empty string. -/
def isEmptyContent (text : Str) : Bool :=
  (jsTrim (filterEdfComments text)).isEmpty

/-! ### Structural lemmas about the annotation header -/

theorem startsWithMarker_append (x : Str) :
    startsWithMarker (str "#EDF#" ++ x) = true := rfl

theorem startsWithMarker_fileLine (n : Str) :
    startsWithMarker (str "#EDF# @File: " ++ n) = true := rfl

theorem startsWithMarker_edfLine (tag line : Str) :
    startsWithMarker (edfLine tag line) = true := by
  unfold edfLine
  split
  · rfl
  · show startsWithMarker (str "#EDF#" ++ tag ++ [' '] ++ line) = true
    rw [List.append_assoc, List.append_assoc]
    exact startsWithMarker_append _

theorem nl_not_mem_edfLine (tag line : Str) (htag : '\n' ∉ tag)
    (hline : '\n' ∉ line) : '\n' ∉ edfLine tag line := by
  unfold edfLine
  split
  · decide
  · intro hmem
    rcases List.mem_append.1 hmem with h | h
    · rcases List.mem_append.1 h with h2 | h2
      · rcases List.mem_append.1 h2 with h3 | h3
        · exact absurd h3 (by decide)
        · exact htag h3
      · exact absurd h2 (by decide)
    · exact hline h

/-- `_formatAsEdfComments` output, line by line: the prefixed lines followed
by the two empty lines coming from the `'\n\n'` terminator. -/
theorem splitNl_formatAsEdfComments (text tag : Str) (htag : '\n' ∉ tag) :
    splitNl (formatAsEdfComments text tag) =
      (splitNl text).map (edfLine tag) ++ [[], []] := by
  unfold formatAsEdfComments
  have hm : ∀ l ∈ (splitNl text).map (edfLine tag), '\n' ∉ l := by
    intro l hl
    rcases List.mem_map.1 hl with ⟨line, hline, rfl⟩
    exact nl_not_mem_edfLine _ _ htag (not_mem_splitCh _ _ _ hline)
  have hne : (splitNl text).map (edfLine tag) ≠ [] := by
    simp only [ne_eq, List.map_eq_nil_iff]
    exact splitCh_ne_nil _ _
  show splitCh '\n' (joinNl ((splitNl text).map (edfLine tag)) ++ '\n' :: ['\n']) = _
  rw [splitCh_append, splitCh_joinCh _ _ hne hm]
  have : splitCh '\n' ['\n'] = [[], []] := rfl
  rw [this]

/-- The header lines produced by `_formatHelpComments`: first help line, the
spliced `@File:` line, remaining help lines. -/
def headerLines (text fileName : Str) : List Str :=
  ((splitNl text).map (edfLine [])).take 1 ++
    (str "#EDF# @File: " ++ fileName) :: ((splitNl text).map (edfLine [])).drop 1

/-- Decomposition of `_formatHelpComments` output: the marker-prefixed header
lines joined by newlines, then the blank separator, with the `@File:` line in
second position. -/
theorem headerLines_spec (text fileName : Str) (hn : '\n' ∉ fileName) :
    formatHelpComments text fileName =
      joinNl (headerLines text fileName) ++ ['\n', '\n'] ∧
    headerLines text fileName ≠ [] ∧
    (∀ l ∈ headerLines text fileName, startsWithMarker l = true) ∧
    (∀ l ∈ headerLines text fileName, '\n' ∉ l) ∧
    ∃ m0 M, headerLines text fileName =
      m0 :: (str "#EDF# @File: " ++ fileName) :: M := by
  have hmap : ∀ l ∈ (splitNl text).map (edfLine []), startsWithMarker l = true := by
    intro l hl
    rcases List.mem_map.1 hl with ⟨line, _, rfl⟩
    exact startsWithMarker_edfLine _ _
  have hmapnl : ∀ l ∈ (splitNl text).map (edfLine []), '\n' ∉ l := by
    intro l hl
    rcases List.mem_map.1 hl with ⟨line, hline, rfl⟩
    exact nl_not_mem_edfLine _ _ (by decide) (not_mem_splitCh _ _ _ hline)
  have hflnl : '\n' ∉ str "#EDF# @File: " ++ fileName := by
    intro hmem
    rcases List.mem_append.1 hmem with h | h
    · exact absurd h (by decide)
    · exact hn h
  cases hM : (splitNl text).map (edfLine []) with
  | nil => exact absurd hM (by simp only [ne_eq, List.map_eq_nil_iff]; exact splitCh_ne_nil _ _)
  | cons m0 M =>
    have hdr : headerLines text fileName =
        m0 :: (str "#EDF# @File: " ++ fileName) :: M := by
      unfold headerLines
      rw [hM]
      rfl
    refine ⟨?_, ?_, ?_, ?_, ?_⟩
    · unfold formatHelpComments
      rw [splitNl_formatAsEdfComments _ _ (by decide), hM, hdr]
      show joinNl ((m0 :: (str "#EDF# @File: " ++ fileName) :: M) ++ [[], []]) =
        joinNl (m0 :: (str "#EDF# @File: " ++ fileName) :: M) ++ ['\n', '\n']
      unfold joinNl
      rw [joinCh_append _ _ _ (by simp) (by simp)]
      rfl
    · rw [hdr]; simp
    · intro l hl
      rw [hdr] at hl
      rcases List.mem_cons.1 hl with h | h
      · exact h ▸ hmap m0 (by rw [hM]; exact List.mem_cons_self _ _)
      · rcases List.mem_cons.1 h with h2 | h2
        · exact h2 ▸ startsWithMarker_fileLine fileName
        · exact hmap l (by rw [hM]; exact List.mem_cons_of_mem _ h2)
    · intro l hl
      rw [hdr] at hl
      rcases List.mem_cons.1 hl with h | h
      · exact h ▸ hmapnl m0 (by rw [hM]; exact List.mem_cons_self _ _)
      · rcases List.mem_cons.1 h with h2 | h2
        · exact h2 ▸ hflnl
        · exact hmapnl l (by rw [hM]; exact List.mem_cons_of_mem _ h2)
    · exact ⟨m0, M, hdr⟩

/-- Filtering drops the whole help header, leaving the filtered remainder of
what follows the blank separator line. -/
theorem filterEdf_help_append (text fileName rest : Str) (hn : '\n' ∉ fileName) :
    filterEdfComments (formatHelpComments text fileName ++ rest) =
      filterEdfComments ('\n' :: rest) := by
  obtain ⟨heq, hne, hmark, hnl, -⟩ := headerLines_spec text fileName hn
  rw [heq]
  unfold filterEdfComments splitNl joinNl
  have hra : joinCh '\n' (headerLines text fileName) ++ ['\n', '\n'] ++ rest =
      joinCh '\n' (headerLines text fileName) ++ '\n' :: ('\n' :: rest) := by
    rw [List.append_assoc]
    rfl
  rw [hra, splitCh_append, splitCh_joinCh _ _ hne ?hnonl, List.filter_append]
  case hnonl => exact hnl
  have hzero : List.filter (fun line => ! startsWithMarker line)
      (headerLines text fileName) = [] := by
    rw [List.filter_eq_nil_iff]
    intro a ha
    simp [hmark a ha]
  rw [hzero, List.nil_append]

/-- Filtering a newline-headed remainder whose own lines carry no marker is
the identity. -/
theorem filterEdf_nl_cons_of_no_marker (C : Str)
    (h : ∀ l ∈ splitNl C, startsWithMarker l = false) :
    filterEdfComments ('\n' :: C) = '\n' :: C := by
  unfold filterEdfComments splitNl joinNl
  rw [splitCh_cons_sep]
  have hpos : List.filter (fun line => ! startsWithMarker line)
      ([] :: splitCh '\n' C) =
      [] :: List.filter (fun line => ! startsWithMarker line) (splitCh '\n' C) :=
    List.filter_cons_of_pos rfl
  rw [hpos]
  rw [List.filter_eq_self.2 (fun a ha => by simp [h a ha])]
  rw [joinCh_cons_of_ne_nil _ _ _ (splitCh_ne_nil _ _), joinCh_splitCh]
  rfl

/-- Every line of `_filterEdfComments` output is marker-free. -/
theorem splitNl_filterEdf_no_marker (t : Str) :
    ∀ l ∈ splitNl (filterEdfComments t), startsWithMarker l = false := by
  intro l hl
  unfold filterEdfComments splitNl joinNl at hl
  cases hF : List.filter (fun line => ! startsWithMarker line) (splitCh '\n' t) with
  | nil =>
    rw [hF] at hl
    have h0 : splitCh '\n' (joinCh '\n' ([] : List Str)) = [[]] := rfl
    rw [h0] at hl
    have : l = [] := by simpa using hl
    rw [this]
    rfl
  | cons f fs =>
    rw [hF] at hl
    have hsub : ∀ x ∈ (f :: fs : List Str), '\n' ∉ x := by
      intro x hx
      have hx2 : x ∈ List.filter (fun line => ! startsWithMarker line)
          (splitCh '\n' t) := by
        rw [hF]; exact hx
      exact not_mem_splitCh '\n' t x (List.mem_of_mem_filter hx2)
    rw [splitCh_joinCh '\n' (f :: fs) (by simp) hsub] at hl
    have hl2 : l ∈ List.filter (fun line => ! startsWithMarker line)
        (splitCh '\n' t) := by
      rw [hF]; exact hl
    have := List.of_mem_filter hl2
    simpa using this

/-- Whitespace-trimming to nothing is the same as being all-whitespace. -/
theorem forall_dropWhile_iff (p : Char → Bool) (s : Str) :
    (∀ x ∈ s.dropWhile p, p x = true) ↔ ∀ x ∈ s, p x = true := by
  constructor
  · intro h x hx
    have hsplit : s.takeWhile p ++ s.dropWhile p = s :=
      List.takeWhile_append_dropWhile p s
    rw [← hsplit] at hx
    rcases List.mem_append.1 hx with h1 | h1
    · exact List.mem_takeWhile_imp h1
    · exact h x h1
  · intro h x hx
    exact h x (List.dropWhile_subset _ hx)

theorem jsTrim_eq_nil_iff (s : Str) : jsTrim s = [] ↔ ∀ c ∈ s, isJsWs c = true := by
  unfold jsTrim
  rw [List.reverse_eq_nil_iff, List.dropWhile_eq_nil_iff]
  constructor
  · intro h c hc
    exact (forall_dropWhile_iff isJsWs s).1
      (fun x hx => h x (List.mem_reverse.2 hx)) c hc
  · intro h c hc
    exact (forall_dropWhile_iff isJsWs s).2 h c (List.mem_reverse.1 hc)

/-! ### Further decomposition lemmas -/

theorem filterEdf_eq (t : Str) :
    filterEdfComments t =
      joinNl ((splitNl t).filter (fun line => ! startsWithMarker line)) := rfl

/-- Lines of a help header followed by arbitrary bytes. -/
theorem splitNl_help_append (text fileName rest : Str) (hfn : '\n' ∉ fileName) :
    splitNl (formatHelpComments text fileName ++ rest) =
      headerLines text fileName ++ [] :: splitNl rest := by
  obtain ⟨heq, hne, -, hnl, -⟩ := headerLines_spec text fileName hfn
  rw [heq]
  unfold splitNl joinNl
  have hra : joinCh '\n' (headerLines text fileName) ++ ['\n', '\n'] ++ rest =
      joinCh '\n' (headerLines text fileName) ++ '\n' :: ('\n' :: rest) := by
    rw [List.append_assoc]
    rfl
  rw [hra, splitCh_append, splitCh_joinCh _ _ hne hnl, splitCh_cons_sep]

/-- Lines of an error block followed by arbitrary bytes, for single-line
error entries. -/
theorem splitNl_err_append (errors : List Str) (rest : Str) (hne : errors ≠ [])
    (herrnl : ∀ e ∈ errors, '\n' ∉ e) :
    splitNl (formatErrorComments errors ++ rest) =
      errors.map (edfLine (str "ERROR:")) ++ [] :: splitNl rest := by
  unfold formatErrorComments formatAsEdfComments splitNl joinNl
  rw [splitCh_joinCh '\n' errors hne herrnl]
  have hm : ∀ l ∈ errors.map (edfLine (str "ERROR:")), '\n' ∉ l := by
    intro l hl
    rcases List.mem_map.1 hl with ⟨e, he, rfl⟩
    exact nl_not_mem_edfLine _ _ (by decide) (herrnl e he)
  have hmapne : errors.map (edfLine (str "ERROR:")) ≠ [] := by
    simp only [ne_eq, List.map_eq_nil_iff]
    exact hne
  have hra : joinCh '\n' (errors.map (edfLine (str "ERROR:"))) ++ ['\n', '\n'] ++ rest =
      joinCh '\n' (errors.map (edfLine (str "ERROR:"))) ++ '\n' :: ('\n' :: rest) := by
    rw [List.append_assoc]
    rfl
  rw [hra, splitCh_append, splitCh_joinCh _ _ hmapne hm, splitCh_cons_sep]

theorem isEmpty_false_of_ne_nil (l : Str) (h : l ≠ []) : l.isEmpty = false := by
  cases l with
  | nil => exact absurd rfl h
  | cons a t => rfl

/-- The formatted shape of one `ERROR:` annotation line. -/
theorem edfLine_error (e : Str) (he : jsTrim e ≠ []) :
    edfLine (str "ERROR:") e = str "#EDF#ERROR: " ++ e := by
  unfold edfLine
  rw [if_neg (by simp [isEmpty_false_of_ne_nil _ he])]
  have hD : str "#EDF#" ++ str "ERROR:" ++ [' '] = str "#EDF#ERROR: " := by decide
  rw [hD]

/-- Trimming to nothing is exactly being all-whitespace. -/
theorem jsTrim_isEmpty (s : Str) : (jsTrim s).isEmpty = s.all isJsWs := by
  by_cases h : jsTrim s = []
  · rw [h]
    have hall : s.all isJsWs = true := List.all_eq_true.2 ((jsTrim_eq_nil_iff s).1 h)
    rw [hall]
    rfl
  · have h2 : s.all isJsWs = false := by
      cases hall : s.all isJsWs with
      | false => rfl
      | true =>
        exact absurd ((jsTrim_eq_nil_iff s).2 (List.all_eq_true.1 hall)) h
    rw [isEmpty_false_of_ne_nil _ h, h2]

/-! ### Claim C1 -/

/-- C1 (counterexample): for original content consisting of a user line that
itself begins with the reserved marker, the annotation-stripped content of the
freshly created intermediate file does not have the original content as a
suffix (it is empty), so the round-trip of the claim fails for that content. -/
theorem c1_counterexample :
    filterEdfComments (createForEditingContent (str "h") (str "a.desktop")
      (some (str "#EDF#x"))) = [] ∧
    (str "#EDF#x").isSuffixOf (filterEdfComments (createForEditingContent
      (str "h") (str "a.desktop") (some (str "#EDF#x")))) = false := by decide

/-- C1 (amended): for a non-empty help text, a newline-free base name and an
original content `C` none of whose lines begins with `#EDF#`, the intermediate
file is byte-for-byte the annotation header followed by `C`, its
annotation-stripped content is exactly one blank line followed by `C` (so its
suffix is `C`), the base name appears as the second annotation line, and the
copied content is empty when the original file could not be read. -/
theorem c1_roundtrip (helpText fileName C : Str) (_hhelp : helpText ≠ [])
    (hfn : '\n' ∉ fileName)
    (hC : ∀ l ∈ splitNl C, startsWithMarker l = false) :
    createForEditingContent helpText fileName (some C) =
      formatHelpComments helpText fileName ++ C ∧
    filterEdfComments (createForEditingContent helpText fileName (some C)) =
      '\n' :: C ∧
    (splitNl (createForEditingContent helpText fileName (some C)))[1]? =
      some (str "#EDF# @File: " ++ fileName) ∧
    filterEdfComments (createForEditingContent helpText fileName none) =
      ['\n'] := by
  refine ⟨rfl, ?_, ?_, ?_⟩
  · show filterEdfComments (formatHelpComments helpText fileName ++ C) = '\n' :: C
    rw [filterEdf_help_append _ _ _ hfn, filterEdf_nl_cons_of_no_marker _ hC]
  · show (splitNl (formatHelpComments helpText fileName ++ C))[1]? =
      some (str "#EDF# @File: " ++ fileName)
    rw [splitNl_help_append _ _ _ hfn]
    obtain ⟨-, -, -, -, m0, M, hdr⟩ := headerLines_spec helpText fileName hfn
    rw [hdr]
    simp
  · show filterEdfComments (formatHelpComments helpText fileName ++ []) = ['\n']
    rw [filterEdf_help_append _ _ _ hfn]
    decide

/-- C1 (witness): the amended round-trip at a concrete session. -/
theorem c1_roundtrip_witness :
    createForEditingContent (str "Help") (str "foo.desktop")
        (some (str "[Desktop Entry]")) =
      formatHelpComments (str "Help") (str "foo.desktop") ++ str "[Desktop Entry]" ∧
    filterEdfComments (createForEditingContent (str "Help") (str "foo.desktop")
        (some (str "[Desktop Entry]"))) = '\n' :: str "[Desktop Entry]" ∧
    (splitNl (createForEditingContent (str "Help") (str "foo.desktop")
        (some (str "[Desktop Entry]"))))[1]? =
      some (str "#EDF# @File: " ++ str "foo.desktop") ∧
    filterEdfComments (createForEditingContent (str "Help") (str "foo.desktop")
      none) = ['\n'] :=
  c1_roundtrip (str "Help") (str "foo.desktop") (str "[Desktop Entry]")
    (by decide) (by decide) (by decide)

/-! ### Claim C2 -/

/-- C2 (counterexample): the validation-failure rewrite does not leave the
annotation-stripped content equal to the pre-rewrite stripped content — it
prepends the two blank separator lines of the header and error blocks. -/
theorem c2_counterexample :
    filterEdfComments (recreateWithErrorsContent (str "x") [str "bad"]
      (str "h") (str "n")) ≠ filterEdfComments (str "x") := by decide

/-- C2 (amended): for a non-empty list of single-line, non-whitespace errors,
the rewrite leaves the annotation-stripped content equal to two blank
separator lines followed by the user's pre-rewrite annotation-stripped
content (no user edits lost), and every error appears as an
`#EDF#ERROR: `-marked annotation line. -/
theorem c2_recreate (oldContent : Str) (errors : List Str)
    (helpText fileName : Str) (hfn : '\n' ∉ fileName) (hne : errors ≠ [])
    (herrnl : ∀ e ∈ errors, '\n' ∉ e) (herrws : ∀ e ∈ errors, jsTrim e ≠ []) :
    filterEdfComments (recreateWithErrorsContent oldContent errors helpText
        fileName) =
      '\n' :: '\n' :: filterEdfComments oldContent ∧
    errors.map (fun e => str "#EDF#ERROR: " ++ e) ⊆
      splitNl (recreateWithErrorsContent oldContent errors helpText fileName) := by
  have hsplit : splitNl (recreateWithErrorsContent oldContent errors helpText
      fileName) =
      headerLines helpText fileName ++ [] ::
        (errors.map (edfLine (str "ERROR:")) ++ [] ::
          splitNl (filterEdfComments oldContent)) := by
    unfold recreateWithErrorsContent
    rw [splitNl_help_append _ _ _ hfn, splitNl_err_append _ _ hne herrnl]
  constructor
  · rw [filterEdf_eq, hsplit]
    obtain ⟨-, -, hmark, -, -⟩ := headerLines_spec helpText fileName hfn
    rw [List.filter_append]
    have h1 : List.filter (fun line => ! startsWithMarker line)
        (headerLines helpText fileName) = [] := by
      rw [List.filter_eq_nil_iff]
      intro a ha
      simp [hmark a ha]
    rw [h1, List.nil_append]
    have h2 : List.filter (fun line => ! startsWithMarker line)
        ([] :: (errors.map (edfLine (str "ERROR:")) ++ [] ::
          splitNl (filterEdfComments oldContent))) =
        [] :: [] :: splitNl (filterEdfComments oldContent) := by
      rw [List.filter_cons_of_pos rfl, List.filter_append]
      have hEL : List.filter (fun line => ! startsWithMarker line)
          (errors.map (edfLine (str "ERROR:"))) = [] := by
        rw [List.filter_eq_nil_iff]
        intro a ha
        rcases List.mem_map.1 ha with ⟨e, -, rfl⟩
        simp [startsWithMarker_edfLine]
      rw [hEL, List.nil_append, List.filter_cons_of_pos rfl,
        List.filter_eq_self.2
          (fun a ha => by simp [splitNl_filterEdf_no_marker _ a ha])]
    rw [h2]
    unfold joinNl
    rw [joinCh_cons_of_ne_nil _ _ _ (by simp),
      joinCh_cons_of_ne_nil _ _ _ (splitCh_ne_nil _ _), joinCh_splitCh]
    rfl
  · intro x hx
    rcases List.mem_map.1 hx with ⟨e, he, rfl⟩
    rw [hsplit]
    have hline : edfLine (str "ERROR:") e = str "#EDF#ERROR: " ++ e :=
      edfLine_error e (herrws e he)
    refine List.mem_append.2 (Or.inr (List.mem_cons_of_mem _
      (List.mem_append.2 (Or.inl ?_))))
    rw [← hline]
    exact List.mem_map_of_mem _ he

/-- C2 (witness): the amended rewrite property at a concrete malformed file
with one validation error. -/
theorem c2_recreate_witness :
    filterEdfComments (recreateWithErrorsContent (str "[Desktop Entry")
        [str "bad key"] (str "Help") (str "foo.desktop")) =
      '\n' :: '\n' :: filterEdfComments (str "[Desktop Entry") ∧
    [str "bad key"].map (fun e => str "#EDF#ERROR: " ++ e) ⊆
      splitNl (recreateWithErrorsContent (str "[Desktop Entry")
        [str "bad key"] (str "Help") (str "foo.desktop")) :=
  c2_recreate (str "[Desktop Entry") [str "bad key"] (str "Help")
    (str "foo.desktop") (by decide) (by decide) (by decide) (by decide)

/-! ### Claim C5 -/

/-- C5: `isEmptyContent` is true exactly when the annotation-stripped content
is all whitespace (in particular when it is empty), and a lone `#` comment
character with no marker is not empty content. -/
theorem c5_isEmptyContent (text : Str) :
    isEmptyContent text = (filterEdfComments text).all isJsWs ∧
    isEmptyContent (str "#") = false :=
  ⟨jsTrim_isEmpty _, by decide⟩

/-! ### Claim C10 -/

/-- C10: any line beginning with the reserved `#EDF#` marker — even one
authored by the user — is classified as an annotation line: it never survives
`_filterEdfComments` (so commit and the validation-failure rewrite drop it),
and a file whose only content is such a line counts as empty. -/
theorem c10_user_marker_lines (text line : Str)
    (hm : startsWithMarker line = true) (hnl : '\n' ∉ line) :
    line ∉ splitNl (filterEdfComments text) ∧
    isEmptyContent line = true ∧
    filterEdfComments (str "A=1\n" ++ line ++ str "\nB=2") = str "A=1\nB=2" := by
  refine ⟨?_, ?_, ?_⟩
  · intro hmem
    have hfalse := splitNl_filterEdf_no_marker text line hmem
    rw [hm] at hfalse
    exact Bool.noConfusion hfalse
  · unfold isEmptyContent filterEdfComments splitNl joinNl
    rw [splitCh_of_not_mem _ _ hnl]
    have hfil : List.filter (fun l => ! startsWithMarker l) [line] = [] := by
      rw [List.filter_eq_nil_iff]
      intro a ha
      have ha2 : a = line := by simpa using ha
      simp [ha2, hm]
    rw [hfil]
    rfl
  · have hform : str "A=1\n" ++ line ++ str "\nB=2" =
        str "A=1" ++ '\n' :: (line ++ '\n' :: str "B=2") := by
      rw [List.append_assoc]
      rfl
    rw [hform]
    unfold filterEdfComments splitNl joinNl
    rw [splitCh_append, splitCh_of_not_mem '\n' (str "A=1") (by decide),
      splitCh_append, splitCh_of_not_mem '\n' line hnl,
      splitCh_of_not_mem '\n' (str "B=2") (by decide)]
    rw [List.filter_append, List.filter_append]
    have h1 : List.filter (fun l => ! startsWithMarker l) [str "A=1"] =
        [str "A=1"] := by decide
    have h2 : List.filter (fun l => ! startsWithMarker l) [line] = [] := by
      rw [List.filter_eq_nil_iff]
      intro a ha
      have ha2 : a = line := by simpa using ha
      simp [ha2, hm]
    have h3 : List.filter (fun l => ! startsWithMarker l) [str "B=2"] =
        [str "B=2"] := by decide
    rw [h1, h2, h3, List.nil_append]
    decide

/-- C10 (witness): a concrete user-authored marker line is silently dropped
from the commit output and makes the file count as empty. -/
theorem c10_user_marker_lines_witness :
    str "#EDF#Categories=X" ∉
      splitNl (filterEdfComments (str "#EDF#Categories=X")) ∧
    isEmptyContent (str "#EDF#Categories=X") = true ∧
    filterEdfComments (str "A=1\n" ++ str "#EDF#Categories=X" ++ str "\nB=2") =
      str "A=1\nB=2" :=
  c10_user_marker_lines (str "#EDF#Categories=X") (str "#EDF#Categories=X")
    (by decide) (by decide)

/-! ### State model

The manager's bookkeeping (`_editingFiles`, `_originalFiles`), the filesystem
visible to the pipeline (path-keyed file contents and directories) and the
trash are modelled explicitly; paths are strings (`Str`). -/

/-- Path-keyed association of file contents. -/
abbrev Assoc := List (Str × Str)

/-- Content at a path, `none` when no file exists there. -/
def lookupD : Assoc → Str → Option Str
  | [], _ => none
  | (q, c) :: rest, p => if q = p then some c else lookupD rest p

/-- Delete the file at a path: `Gio.File.delete`. -/
def deleteD : Assoc → Str → Assoc
  | [], _ => []
  | (q, c) :: rest, p => if q = p then deleteD rest p else (q, c) :: deleteD rest p

/-- Write (create or atomically replace) the file at a path:
`Gio.File.replace_contents` with `REPLACE_DESTINATION` semantics. -/
def storeD (d : Assoc) (p c : Str) : Assoc := (p, c) :: deleteD d p

theorem lookupD_deleteD_self (d : Assoc) (p : Str) :
    lookupD (deleteD d p) p = none := by
  induction d with
  | nil => rfl
  | cons e rest ih =>
    cases e with
    | mk a b =>
      by_cases ha : a = p
      · simp only [deleteD, if_pos ha]
        exact ih
      · simp only [deleteD, if_neg ha, lookupD, if_neg ha]
        exact ih

theorem lookupD_deleteD_ne (d : Assoc) (p q : Str) (h : ¬ p = q) :
    lookupD (deleteD d p) q = lookupD d q := by
  induction d with
  | nil => rfl
  | cons e rest ih =>
    cases e with
    | mk a b =>
      by_cases ha : a = p
      · have haq : ¬ a = q := fun hq => h (by rw [← ha]; exact hq)
        simp only [deleteD, if_pos ha, lookupD, if_neg haq]
        exact ih
      · by_cases haq : a = q
        · simp only [deleteD, if_neg ha, lookupD, if_pos haq]
        · simp only [deleteD, if_neg ha, lookupD, if_neg haq]
          exact ih

theorem lookupD_storeD_self (d : Assoc) (p c : Str) :
    lookupD (storeD d p c) p = some c := by
  simp [storeD, lookupD]

theorem lookupD_storeD_ne (d : Assoc) (p c q : Str) (h : ¬ p = q) :
    lookupD (storeD d p c) q = lookupD d q := by
  simp only [storeD, lookupD, if_neg h]
  exact lookupD_deleteD_ne d p q h

/-- The state visible to the pipeline: the manager's two tracking
collections, the files on disk, the set of existing directories and the
trash. -/
structure St where
  editingFiles : List Str
  originalFiles : Assoc
  disk : Assoc
  dirs : List Str
  trash : Assoc
deriving DecidableEq

/-- Which I/O step of `createForEditing` fails, if any: the initial
`replace_contents` of the header may throw, or the `append_to`/`write` of the
original content may throw after the header is already on disk. -/
inductive CreateStep
  | ok
  | headerWriteFails
  | appendFails
deriving DecidableEq

/-- `createForEditing(originalPath)`.  The session is registered in
`_editingFiles`/`_originalFiles` before the `try` block; with an empty
(falsy) help text nothing is written at all; otherwise the header is written
and, when reading the original succeeds, its bytes are appended.  A thrown
error is caught and `null` (here `none`) is returned with the registration
left in place. -/
def createForEditing (s : St) (interPath origPath helpText : Str)
    (io : CreateStep) : St × Option Str :=
  let s1 : St := { s with editingFiles := interPath :: s.editingFiles,
                          originalFiles := (interPath, origPath) :: s.originalFiles }
  if helpText = [] then (s1, some interPath)
  else
    match io with
    | .headerWriteFails => (s1, none)
    | .ok =>
        let content := createForEditingContent helpText (basename origPath)
          (lookupD s.disk origPath)
        ({ s1 with disk := storeD s1.disk interPath content }, some interPath)
    | .appendFails =>
        let hdr := formatHelpComments helpText (basename origPath)
        ({ s1 with disk := storeD s1.disk interPath hdr }, none)

/-- Remove every occurrence of an element: `Set.prototype.delete` on the
duplicate-free tracking set. -/
def eraseAll : List Str → Str → List Str
  | [], _ => []
  | x :: rest, f => if x = f then eraseAll rest f else x :: eraseAll rest f

theorem not_mem_eraseAll (l : List Str) (f : Str) : f ∉ eraseAll l f := by
  induction l with
  | nil => simp [eraseAll]
  | cons x rest ih =>
    by_cases hx : x = f
    · simpa [eraseAll, hx] using ih
    · simp only [eraseAll, if_neg hx]
      intro hmem
      rcases List.mem_cons.1 hmem with h | h
      · exact hx h.symm
      · exact ih h

theorem lookupD_mem (d : Assoc) (p c : Str) (h : lookupD d p = some c) :
    (p, c) ∈ d := by
  induction d with
  | nil => exact absurd h (by simp [lookupD])
  | cons e rest ih =>
    cases e with
    | mk a b =>
      by_cases ha : a = p
      · simp only [lookupD, if_pos ha] at h
        have : c = b := by injection h with h2; exact h2.symm
        rw [this, ← ha]
        exact List.mem_cons_self _ _
      · simp only [lookupD, if_neg ha] at h
        exact List.mem_cons_of_mem _ (ih h)

/-- `remove(file)`: a `null` file or an untracked file is a no-op; otherwise
both tracking entries are deleted first, and then the file delete is
attempted inside `try`, its failure (`deleteOk = false`) being caught. -/
def remove (s : St) (file : Option Str) (deleteOk : Bool) : St :=
  match file with
  | none => s
  | some f =>
    if f ∈ s.editingFiles then
      let s1 : St := { s with
        editingFiles := eraseAll s.editingFiles f,
        originalFiles := deleteD s.originalFiles f }
      if deleteOk then { s1 with disk := deleteD s1.disk f } else s1
    else s

theorem remove_trash (s : St) (file : Option Str) (d : Bool) :
    (remove s file d).trash = s.trash := by
  cases file with
  | none => rfl
  | some f =>
    by_cases hf : f ∈ s.editingFiles
    · cases d <;> simp [remove, hf]
    · simp [remove, hf]

theorem lookupD_remove_disk_ne (s : St) (f q : Str) (d : Bool) (h : ¬ f = q) :
    lookupD (remove s (some f) d).disk q = lookupD s.disk q := by
  by_cases hf : f ∈ s.editingFiles
  · cases d with
    | false => simp [remove, hf]
    | true => simp [remove, hf, lookupD_deleteD_ne _ _ _ h]
  · simp [remove, hf]

theorem remove_not_mem (s : St) (f : Str) (d : Bool) :
    f ∉ (remove s (some f) d).editingFiles := by
  by_cases hf : f ∈ s.editingFiles
  · cases d <;> simp [remove, hf] <;> exact not_mem_eraseAll _ _
  · simp only [remove, if_neg hf]
    exact hf

/-- `applyChanges(editedFile)`: look up the original, load the edited bytes,
strip annotation lines, ensure `<user-data-dir>/applications` exists and
write the stripped bytes to `<user-data-dir>/applications/<original-basename>`
(replacing any destination).  Any failure is caught and reported as `false`. -/
def applyChanges (s : St) (editedPath userDataDir : Str) : St × Bool :=
  match lookupD s.originalFiles editedPath with
  | none => (s, false)
  | some origPath =>
    match lookupD s.disk editedPath with
    | none => (s, false)
    | some contents =>
      let content := filterEdfComments contents
      let appsDir := userDataDir ++ str "/applications"
      let localPath := appsDir ++ '/' :: basename origPath
      let dirs1 := if appsDir ∈ s.dirs then s.dirs else appsDir :: s.dirs
      ({ s with disk := storeD s.disk localPath content, dirs := dirs1 }, true)

/-- The empty-content branch of `_launchEditor`: after the user confirmed,
the local copy under `<user-data-dir>/applications` is moved to trash when it
exists and the session is removed; a decline only removes the session.  The
original file is never touched. -/
def handleEmptyContent (s : St) (interPath origPath userDataDir : Str)
    (confirmed deleteOk : Bool) : St :=
  if confirmed then
    match lookupD s.disk (userDataDir ++ str "/applications/" ++ basename origPath) with
    | some c =>
        remove { s with
            disk := deleteD s.disk
              (userDataDir ++ str "/applications/" ++ basename origPath),
            trash := (userDataDir ++ str "/applications/" ++ basename origPath, c)
              :: s.trash }
          (some interPath) deleteOk
    | none => remove s (some interPath) deleteOk
  else remove s (some interPath) deleteOk

theorem handleEmptyContent_confirmed_some (s : St)
    (interPath origPath userDataDir c : Str) (d : Bool)
    (hloc : lookupD s.disk
      (userDataDir ++ str "/applications/" ++ basename origPath) = some c) :
    handleEmptyContent s interPath origPath userDataDir true d =
      remove { s with
          disk := deleteD s.disk
            (userDataDir ++ str "/applications/" ++ basename origPath),
          trash := (userDataDir ++ str "/applications/" ++ basename origPath, c)
            :: s.trash }
        (some interPath) d := by
  unfold handleEmptyContent
  rw [if_pos rfl, hloc]

theorem handleEmptyContent_confirmed_none (s : St)
    (interPath origPath userDataDir : Str) (d : Bool)
    (hloc : lookupD s.disk
      (userDataDir ++ str "/applications/" ++ basename origPath) = none) :
    handleEmptyContent s interPath origPath userDataDir true d =
      remove s (some interPath) d := by
  unfold handleEmptyContent
  rw [if_pos rfl, hloc]

theorem handleEmptyContent_declined (s : St)
    (interPath origPath userDataDir : Str) (d : Bool) :
    handleEmptyContent s interPath origPath userDataDir false d =
      remove s (some interPath) d := by
  unfold handleEmptyContent
  rw [if_neg (by simp)]

/-! ### Claim C4 -/

/-- C4 (counterexample): with an empty (falsy) help text, `createForEditing`
registers the session and returns it, but the `if (helpText)` guard skips
every write, so the tracked session has no intermediate file on disk. -/
theorem c4_counterexample :
    (createForEditing ⟨[], [], [], [], []⟩ (str "/tmp/edf-1.desktop")
        (str "/usr/share/applications/a.desktop") [] .ok).2 =
      some (str "/tmp/edf-1.desktop") ∧
    (str "/tmp/edf-1.desktop") ∈
      (createForEditing ⟨[], [], [], [], []⟩ (str "/tmp/edf-1.desktop")
        (str "/usr/share/applications/a.desktop") [] .ok).1.editingFiles ∧
    lookupD (createForEditing ⟨[], [], [], [], []⟩ (str "/tmp/edf-1.desktop")
        (str "/usr/share/applications/a.desktop") [] .ok).1.disk
      (str "/tmp/edf-1.desktop") = none := by decide

/-- C4 (amended): the session is registered (in both tracking collections)
before any I/O, whatever the help text and whatever fails; with a non-empty
help text the intermediate file exists on disk with the annotated content as
soon as `createForEditing` returns successfully, and even when appending the
original content fails the header is on disk while the call returns null;
with an empty help text or a failed header write the session is tracked with
no file written. -/
theorem c4_tracked_intermediate (s : St) (interPath origPath helpText : Str)
    (io : CreateStep) (hhelp : helpText ≠ []) :
    interPath ∈
      (createForEditing s interPath origPath helpText io).1.editingFiles ∧
    lookupD (createForEditing s interPath origPath helpText io).1.originalFiles
      interPath = some origPath ∧
    lookupD (createForEditing s interPath origPath helpText .ok).1.disk
        interPath =
      some (createForEditingContent helpText (basename origPath)
        (lookupD s.disk origPath)) ∧
    lookupD (createForEditing s interPath origPath helpText .appendFails).1.disk
        interPath = some (formatHelpComments helpText (basename origPath)) ∧
    (createForEditing s interPath origPath helpText .headerWriteFails).2 =
      none := by
  have hif : ¬ helpText = [] := hhelp
  refine ⟨?_, ?_, ?_, ?_, ?_⟩
  · cases io <;> simp [createForEditing, hif]
  · cases io <;> simp [createForEditing, hif, lookupD]
  · simp [createForEditing, hif, lookupD_storeD_self]
  · simp [createForEditing, hif, lookupD_storeD_self]
  · simp [createForEditing, hif]

/-- C4 (witness): the amended tracking-and-file property at one session. -/
theorem c4_tracked_intermediate_witness :
    (str "/tmp/edf-1.desktop") ∈
      (createForEditing ⟨[], [], [], [], []⟩ (str "/tmp/edf-1.desktop")
        (str "/usr/share/applications/a.desktop") (str "Help") .ok).1.editingFiles ∧
    lookupD (createForEditing ⟨[], [], [], [], []⟩ (str "/tmp/edf-1.desktop")
        (str "/usr/share/applications/a.desktop") (str "Help") .ok).1.originalFiles
      (str "/tmp/edf-1.desktop") = some (str "/usr/share/applications/a.desktop") ∧
    lookupD (createForEditing ⟨[], [], [], [], []⟩ (str "/tmp/edf-1.desktop")
        (str "/usr/share/applications/a.desktop") (str "Help") .ok).1.disk
        (str "/tmp/edf-1.desktop") =
      some (createForEditingContent (str "Help")
        (basename (str "/usr/share/applications/a.desktop"))
        (lookupD (St.disk ⟨[], [], [], [], []⟩)
          (str "/usr/share/applications/a.desktop"))) ∧
    lookupD (createForEditing ⟨[], [], [], [], []⟩ (str "/tmp/edf-1.desktop")
        (str "/usr/share/applications/a.desktop") (str "Help")
        .appendFails).1.disk (str "/tmp/edf-1.desktop") =
      some (formatHelpComments (str "Help")
        (basename (str "/usr/share/applications/a.desktop"))) ∧
    (createForEditing ⟨[], [], [], [], []⟩ (str "/tmp/edf-1.desktop")
      (str "/usr/share/applications/a.desktop") (str "Help")
      .headerWriteFails).2 = none :=
  c4_tracked_intermediate ⟨[], [], [], [], []⟩ (str "/tmp/edf-1.desktop")
    (str "/usr/share/applications/a.desktop") (str "Help") .ok (by decide)

/-! ### Claim C6 -/

/-- C6: `remove` is idempotent and never fails: removing `null` or an
untracked file is a no-op, after any call (even with the filesystem delete
failing) no tracking entry for the file remains in either collection, and a
second call on the same file changes nothing.  The registry invariant that
every original-file key is a tracked editing file holds for every state the
manager constructs. -/
theorem c6_remove_idempotent (s : St) (f g : Str) (d d2 : Bool)
    (hg : g ∉ s.editingFiles)
    (hinv : ∀ e ∈ s.originalFiles, e.1 ∈ s.editingFiles) :
    remove s none d = s ∧
    remove s (some g) d = s ∧
    f ∉ (remove s (some f) d).editingFiles ∧
    lookupD (remove s (some f) d).originalFiles f = none ∧
    remove (remove s (some f) d) (some f) d2 = remove s (some f) d := by
  refine ⟨rfl, ?_, remove_not_mem s f d, ?_, ?_⟩
  · simp [remove, hg]
  · by_cases hf : f ∈ s.editingFiles
    · cases d <;> simp [remove, hf, lookupD_deleteD_self]
    · simp only [remove, if_neg hf]
      cases hl : lookupD s.originalFiles f with
      | none => rfl
      | some c => exact absurd (hinv _ (lookupD_mem _ _ _ hl)) hf
  · have h3 : f ∉ (remove s (some f) d).editingFiles := remove_not_mem s f d
    generalize hY : remove s (some f) d = Y at h3 ⊢
    simp [remove, h3]

/-- C6 (witness): idempotent removal of one tracked session. -/
theorem c6_remove_idempotent_witness :
    remove ⟨[str "/tmp/a"], [(str "/tmp/a", str "/o")],
        [(str "/tmp/a", str "X")], [], []⟩ none true =
      ⟨[str "/tmp/a"], [(str "/tmp/a", str "/o")],
        [(str "/tmp/a", str "X")], [], []⟩ ∧
    remove ⟨[str "/tmp/a"], [(str "/tmp/a", str "/o")],
        [(str "/tmp/a", str "X")], [], []⟩ (some (str "/tmp/b")) true =
      ⟨[str "/tmp/a"], [(str "/tmp/a", str "/o")],
        [(str "/tmp/a", str "X")], [], []⟩ ∧
    str "/tmp/a" ∉ (remove ⟨[str "/tmp/a"], [(str "/tmp/a", str "/o")],
        [(str "/tmp/a", str "X")], [], []⟩ (some (str "/tmp/a"))
        true).editingFiles ∧
    lookupD (remove ⟨[str "/tmp/a"], [(str "/tmp/a", str "/o")],
        [(str "/tmp/a", str "X")], [], []⟩ (some (str "/tmp/a"))
        true).originalFiles (str "/tmp/a") = none ∧
    remove (remove ⟨[str "/tmp/a"], [(str "/tmp/a", str "/o")],
        [(str "/tmp/a", str "X")], [], []⟩ (some (str "/tmp/a")) true)
        (some (str "/tmp/a")) false =
      remove ⟨[str "/tmp/a"], [(str "/tmp/a", str "/o")],
        [(str "/tmp/a", str "X")], [], []⟩ (some (str "/tmp/a")) true :=
  c6_remove_idempotent ⟨[str "/tmp/a"], [(str "/tmp/a", str "/o")],
    [(str "/tmp/a", str "X")], [], []⟩ (str "/tmp/a") (str "/tmp/b") true false
    (by decide) (by decide)

/-! ### Claim C3 -/

/-- The three-line original of the commit scenario. -/
def scenarioOriginal : Str := str "[Desktop Entry]\nName=Foo\nExec=foo"

/-- State after starting a session on the scenario original and editing it
without change. -/
def scenarioState : St :=
  ⟨[str "/tmp/edf-1.desktop"],
   [(str "/tmp/edf-1.desktop", str "/usr/share/applications/foo.desktop")],
   [(str "/tmp/edf-1.desktop",
     createForEditingContent (str "Help") (str "foo.desktop")
       (some scenarioOriginal))],
   [], []⟩

/-- C3 (counterexample): committing the unedited scenario session succeeds,
but the destination file is not exactly the three original lines — the blank
separator line following the annotation header survives stripping, so the
committed content starts with a blank line. -/
theorem c3_counterexample :
    (applyChanges scenarioState (str "/tmp/edf-1.desktop")
      (str "/home/user/.local/share")).2 = true ∧
    ¬ lookupD (applyChanges scenarioState (str "/tmp/edf-1.desktop")
        (str "/home/user/.local/share")).1.disk
        (str "/home/user/.local/share/applications/foo.desktop") =
      some scenarioOriginal := by decide

/-- C3 (amended): for a tracked and readable intermediate file,
`applyChanges` returns true, writes exactly the annotation-stripped bytes of
the intermediate file to `<user-data-dir>/applications/<original-basename>`
(replacing any existing destination) and ensures the destination directory
exists; in the unedited scenario the committed content is one blank line
followed by the three original lines, with no annotation line. -/
theorem c3_applyChanges (s : St) (editedPath userDataDir origPath contents : Str)
    (horig : lookupD s.originalFiles editedPath = some origPath)
    (hdisk : lookupD s.disk editedPath = some contents) :
    (applyChanges s editedPath userDataDir).2 = true ∧
    lookupD (applyChanges s editedPath userDataDir).1.disk
        (userDataDir ++ str "/applications" ++ '/' :: basename origPath) =
      some (filterEdfComments contents) ∧
    (userDataDir ++ str "/applications") ∈
      (applyChanges s editedPath userDataDir).1.dirs ∧
    lookupD (applyChanges scenarioState (str "/tmp/edf-1.desktop")
        (str "/home/user/.local/share")).1.disk
        (str "/home/user/.local/share/applications/foo.desktop") =
      some ('\n' :: scenarioOriginal) := by
  unfold applyChanges
  rw [horig, hdisk]
  refine ⟨rfl, lookupD_storeD_self _ _ _, ?_, by decide⟩
  by_cases hd : (userDataDir ++ str "/applications") ∈ s.dirs
  · simp [hd]
  · simp [hd]

/-- C3 (witness): the amended commit property at the scenario session. -/
theorem c3_applyChanges_witness :
    (applyChanges scenarioState (str "/tmp/edf-1.desktop")
      (str "/home/user/.local/share")).2 = true ∧
    lookupD (applyChanges scenarioState (str "/tmp/edf-1.desktop")
        (str "/home/user/.local/share")).1.disk
        (str "/home/user/.local/share" ++ str "/applications" ++
          '/' :: basename (str "/usr/share/applications/foo.desktop")) =
      some (filterEdfComments (createForEditingContent (str "Help")
        (str "foo.desktop") (some scenarioOriginal))) ∧
    (str "/home/user/.local/share" ++ str "/applications") ∈
      (applyChanges scenarioState (str "/tmp/edf-1.desktop")
        (str "/home/user/.local/share")).1.dirs ∧
    lookupD (applyChanges scenarioState (str "/tmp/edf-1.desktop")
        (str "/home/user/.local/share")).1.disk
        (str "/home/user/.local/share/applications/foo.desktop") =
      some ('\n' :: scenarioOriginal) :=
  c3_applyChanges scenarioState (str "/tmp/edf-1.desktop")
    (str "/home/user/.local/share")
    (str "/usr/share/applications/foo.desktop")
    (createForEditingContent (str "Help") (str "foo.desktop")
      (some scenarioOriginal))
    (by decide) (by decide)

/-! ### Claim C9 -/

/-- C9: on the deletion path the only file the branch touches besides the
intermediate file is the local copy at
`<user-data-dir>/applications/<original-basename>`: when the user confirms it
is moved to trash exactly when it exists and the session is removed; the
original file's content is unchanged in both branches; when the user
declines, the session is removed and neither the local copy nor the trash
change. -/
theorem c9_trash_local_only (s : St) (interPath origPath userDataDir : Str)
    (d : Bool)
    (hlocal : ¬ interPath =
      userDataDir ++ str "/applications/" ++ basename origPath)
    (horig : ¬ origPath =
      userDataDir ++ str "/applications/" ++ basename origPath)
    (hoi : ¬ origPath = interPath) :
    lookupD (handleEmptyContent s interPath origPath userDataDir true d).disk
        origPath = lookupD s.disk origPath ∧
    lookupD (handleEmptyContent s interPath origPath userDataDir false d).disk
        origPath = lookupD s.disk origPath ∧
    lookupD (handleEmptyContent s interPath origPath userDataDir true d).disk
        (userDataDir ++ str "/applications/" ++ basename origPath) = none ∧
    (handleEmptyContent s interPath origPath userDataDir true d).trash =
      (match lookupD s.disk
          (userDataDir ++ str "/applications/" ++ basename origPath) with
        | some c =>
          (userDataDir ++ str "/applications/" ++ basename origPath, c)
            :: s.trash
        | none => s.trash) ∧
    interPath ∉
      (handleEmptyContent s interPath origPath userDataDir true d).editingFiles ∧
    interPath ∉
      (handleEmptyContent s interPath origPath userDataDir false d).editingFiles ∧
    (handleEmptyContent s interPath origPath userDataDir false d).trash =
      s.trash ∧
    lookupD (handleEmptyContent s interPath origPath userDataDir false d).disk
        (userDataDir ++ str "/applications/" ++ basename origPath) =
      lookupD s.disk
        (userDataDir ++ str "/applications/" ++ basename origPath) := by
  have hio : ¬ interPath = origPath := fun hh => hoi hh.symm
  have hlo : ¬ (userDataDir ++ str "/applications/" ++ basename origPath) =
      origPath := fun hh => horig hh.symm
  refine ⟨?_, ?_, ?_, ?_, ?_, ?_, ?_, ?_⟩
  · cases hloc : lookupD s.disk
        (userDataDir ++ str "/applications/" ++ basename origPath) with
    | some c =>
      rw [handleEmptyContent_confirmed_some _ _ _ _ _ _ hloc,
        lookupD_remove_disk_ne _ _ _ _ hio]
      exact lookupD_deleteD_ne _ _ _ hlo
    | none =>
      rw [handleEmptyContent_confirmed_none _ _ _ _ _ hloc,
        lookupD_remove_disk_ne _ _ _ _ hio]
  · rw [handleEmptyContent_declined, lookupD_remove_disk_ne _ _ _ _ hio]
  · cases hloc : lookupD s.disk
        (userDataDir ++ str "/applications/" ++ basename origPath) with
    | some c =>
      rw [handleEmptyContent_confirmed_some _ _ _ _ _ _ hloc,
        lookupD_remove_disk_ne _ _ _ _ hlocal]
      exact lookupD_deleteD_self _ _
    | none =>
      rw [handleEmptyContent_confirmed_none _ _ _ _ _ hloc,
        lookupD_remove_disk_ne _ _ _ _ hlocal]
      exact hloc
  · cases hloc : lookupD s.disk
        (userDataDir ++ str "/applications/" ++ basename origPath) with
    | some c =>
      rw [handleEmptyContent_confirmed_some _ _ _ _ _ _ hloc, remove_trash]
    | none =>
      rw [handleEmptyContent_confirmed_none _ _ _ _ _ hloc, remove_trash]
  · cases hloc : lookupD s.disk
        (userDataDir ++ str "/applications/" ++ basename origPath) with
    | some c =>
      rw [handleEmptyContent_confirmed_some _ _ _ _ _ _ hloc]
      exact remove_not_mem _ _ _
    | none =>
      rw [handleEmptyContent_confirmed_none _ _ _ _ _ hloc]
      exact remove_not_mem _ _ _
  · rw [handleEmptyContent_declined]
    exact remove_not_mem _ _ _
  · rw [handleEmptyContent_declined, remove_trash]
  · rw [handleEmptyContent_declined, lookupD_remove_disk_ne _ _ _ _ hlocal]

/-- C9 (witness): the deletion-path frame property at a concrete state with
an existing local copy. -/
theorem c9_trash_local_only_witness :
    lookupD (handleEmptyContent
        ⟨[str "/tmp/edf-1.desktop"],
         [(str "/tmp/edf-1.desktop", str "/usr/share/applications/foo.desktop")],
         [(str "/tmp/edf-1.desktop", str "X"),
          (str "/home/u/.local/share/applications/foo.desktop", str "L"),
          (str "/usr/share/applications/foo.desktop", str "O")], [], []⟩
        (str "/tmp/edf-1.desktop") (str "/usr/share/applications/foo.desktop")
        (str "/home/u/.local/share") true true).disk
      (str "/usr/share/applications/foo.desktop") =
      lookupD [(str "/tmp/edf-1.desktop", str "X"),
          (str "/home/u/.local/share/applications/foo.desktop", str "L"),
          (str "/usr/share/applications/foo.desktop", str "O")]
        (str "/usr/share/applications/foo.desktop") ∧
    lookupD (handleEmptyContent
        ⟨[str "/tmp/edf-1.desktop"],
         [(str "/tmp/edf-1.desktop", str "/usr/share/applications/foo.desktop")],
         [(str "/tmp/edf-1.desktop", str "X"),
          (str "/home/u/.local/share/applications/foo.desktop", str "L"),
          (str "/usr/share/applications/foo.desktop", str "O")], [], []⟩
        (str "/tmp/edf-1.desktop") (str "/usr/share/applications/foo.desktop")
        (str "/home/u/.local/share") false true).disk
      (str "/usr/share/applications/foo.desktop") =
      lookupD [(str "/tmp/edf-1.desktop", str "X"),
          (str "/home/u/.local/share/applications/foo.desktop", str "L"),
          (str "/usr/share/applications/foo.desktop", str "O")]
        (str "/usr/share/applications/foo.desktop") ∧
    lookupD (handleEmptyContent
        ⟨[str "/tmp/edf-1.desktop"],
         [(str "/tmp/edf-1.desktop", str "/usr/share/applications/foo.desktop")],
         [(str "/tmp/edf-1.desktop", str "X"),
          (str "/home/u/.local/share/applications/foo.desktop", str "L"),
          (str "/usr/share/applications/foo.desktop", str "O")], [], []⟩
        (str "/tmp/edf-1.desktop") (str "/usr/share/applications/foo.desktop")
        (str "/home/u/.local/share") true true).disk
      (str "/home/u/.local/share" ++ str "/applications/" ++
        basename (str "/usr/share/applications/foo.desktop")) = none ∧
    (handleEmptyContent
        ⟨[str "/tmp/edf-1.desktop"],
         [(str "/tmp/edf-1.desktop", str "/usr/share/applications/foo.desktop")],
         [(str "/tmp/edf-1.desktop", str "X"),
          (str "/home/u/.local/share/applications/foo.desktop", str "L"),
          (str "/usr/share/applications/foo.desktop", str "O")], [], []⟩
        (str "/tmp/edf-1.desktop") (str "/usr/share/applications/foo.desktop")
        (str "/home/u/.local/share") true true).trash =
      (match lookupD [(str "/tmp/edf-1.desktop", str "X"),
          (str "/home/u/.local/share/applications/foo.desktop", str "L"),
          (str "/usr/share/applications/foo.desktop", str "O")]
          (str "/home/u/.local/share" ++ str "/applications/" ++
            basename (str "/usr/share/applications/foo.desktop")) with
        | some c =>
          (str "/home/u/.local/share" ++ str "/applications/" ++
            basename (str "/usr/share/applications/foo.desktop"), c) :: []
        | none => ([] : Assoc)) ∧
    str "/tmp/edf-1.desktop" ∉ (handleEmptyContent
        ⟨[str "/tmp/edf-1.desktop"],
         [(str "/tmp/edf-1.desktop", str "/usr/share/applications/foo.desktop")],
         [(str "/tmp/edf-1.desktop", str "X"),
          (str "/home/u/.local/share/applications/foo.desktop", str "L"),
          (str "/usr/share/applications/foo.desktop", str "O")], [], []⟩
        (str "/tmp/edf-1.desktop") (str "/usr/share/applications/foo.desktop")
        (str "/home/u/.local/share") true true).editingFiles ∧
    str "/tmp/edf-1.desktop" ∉ (handleEmptyContent
        ⟨[str "/tmp/edf-1.desktop"],
         [(str "/tmp/edf-1.desktop", str "/usr/share/applications/foo.desktop")],
         [(str "/tmp/edf-1.desktop", str "X"),
          (str "/home/u/.local/share/applications/foo.desktop", str "L"),
          (str "/usr/share/applications/foo.desktop", str "O")], [], []⟩
        (str "/tmp/edf-1.desktop") (str "/usr/share/applications/foo.desktop")
        (str "/home/u/.local/share") false true).editingFiles ∧
    (handleEmptyContent
        ⟨[str "/tmp/edf-1.desktop"],
         [(str "/tmp/edf-1.desktop", str "/usr/share/applications/foo.desktop")],
         [(str "/tmp/edf-1.desktop", str "X"),
          (str "/home/u/.local/share/applications/foo.desktop", str "L"),
          (str "/usr/share/applications/foo.desktop", str "O")], [], []⟩
        (str "/tmp/edf-1.desktop") (str "/usr/share/applications/foo.desktop")
        (str "/home/u/.local/share") false true).trash = [] ∧
    lookupD (handleEmptyContent
        ⟨[str "/tmp/edf-1.desktop"],
         [(str "/tmp/edf-1.desktop", str "/usr/share/applications/foo.desktop")],
         [(str "/tmp/edf-1.desktop", str "X"),
          (str "/home/u/.local/share/applications/foo.desktop", str "L"),
          (str "/usr/share/applications/foo.desktop", str "O")], [], []⟩
        (str "/tmp/edf-1.desktop") (str "/usr/share/applications/foo.desktop")
        (str "/home/u/.local/share") false true).disk
      (str "/home/u/.local/share" ++ str "/applications/" ++
        basename (str "/usr/share/applications/foo.desktop")) =
      lookupD [(str "/tmp/edf-1.desktop", str "X"),
          (str "/home/u/.local/share/applications/foo.desktop", str "L"),
          (str "/usr/share/applications/foo.desktop", str "O")]
        (str "/home/u/.local/share" ++ str "/applications/" ++
          basename (str "/usr/share/applications/foo.desktop")) :=
  c9_trash_local_only
    ⟨[str "/tmp/edf-1.desktop"],
     [(str "/tmp/edf-1.desktop", str "/usr/share/applications/foo.desktop")],
     [(str "/tmp/edf-1.desktop", str "X"),
      (str "/home/u/.local/share/applications/foo.desktop", str "L"),
      (str "/usr/share/applications/foo.desktop", str "O")], [], []⟩
    (str "/tmp/edf-1.desktop") (str "/usr/share/applications/foo.desktop")
    (str "/home/u/.local/share") true (by decide) (by decide) (by decide)

/-! ### Claim C7 -/

/-- Default editor command of `_launchEditor`:
`['gapplication', 'launch', 'org.gnome.TextEditor', intermediatePath]`. -/
def defaultEditCommand (interPath : Str) : List Str :=
  [str "gapplication", str "launch", str "org.gnome.TextEditor", interPath]

/-- The `customCommand.indexOf('%U') !== -1` placeholder test. -/
def hasPercentU : Str → Bool
  | [] => false
  | '%' :: 'U' :: _ => true
  | _ :: rest => hasPercentU rest

/-- Command selection in `_launchEditor`.  `command` is declared with
`const`; when the custom-command setting is on and the template contains
`%U`, the code assigns to `command`, and in strict-mode JavaScript an
assignment to a `const` binding throws a `TypeError` (modelled as
`Except.error ()`) that propagates to the surrounding `try` and aborts the
edit operation; when the placeholder is missing, a warning is logged and the
default command is kept. -/
def selectEditCommand (useCustom : Bool) (custom interPath : Str) :
    Except Unit (List Str) :=
  if useCustom then
    if hasPercentU custom then Except.error ()
    else Except.ok (defaultEditCommand interPath)
  else Except.ok (defaultEditCommand interPath)

/-- C7: with the custom-command setting enabled, a template containing the
`%U` placeholder makes the command-selection step of `_launchEditor` throw
(the `const command` binding is reassigned), aborting the edit operation
instead of launching the editor on the intermediate path; only the
placeholder-free template falls back to the default command. -/
theorem c7_const_reassignment :
    selectEditCommand true (str "vim %U") (str "/tmp/edf-1.desktop") =
      Except.error () ∧
    selectEditCommand true (str "vim") (str "/tmp/edf-1.desktop") =
      Except.ok (defaultEditCommand (str "/tmp/edf-1.desktop")) ∧
    selectEditCommand false (str "vim %U") (str "/tmp/edf-1.desktop") =
      Except.ok (defaultEditCommand (str "/tmp/edf-1.desktop")) :=
  ⟨rfl, rfl, rfl⟩

/-! ### Claim C8 -/

/-- Result of `_validateWithKeyFile`. -/
structure KeyFileRes where
  isValid : Bool
  errors : List Str
deriving DecidableEq

/-- Result of `_validateWithDesktopAppInfo`: `needDetails` requests the
external linter; `errors` is only set on the exception path. -/
structure AppInfoRes where
  isValid : Bool
  needDetails : Bool
  errors : Option (List Str)
deriving DecidableEq

/-- Result of `_validateWithDesktopFileValidate`. -/
structure LinterRes where
  isValid : Bool
  errors : List Str
deriving DecidableEq

/-- `_validateWithDesktopFileValidate`: `spawn = none` models a thrown error
(the tool is unavailable); `some (ok, stderrBytes, exitCode)` models
`GLib.spawn_command_line_sync`.  The non-empty stderr lines become the error
list and exit code 0 means valid. -/
def validateWithDesktopFileValidate (spawn : Option (Bool × Str × Int)) :
    LinterRes :=
  match spawn with
  | none => ⟨false, [str "desktop-file-validate is not available"]⟩
  | some (ok, stderrBytes, exitCode) =>
    if ok = false then ⟨false, [str "Failed to run desktop-file-validate"]⟩
    else ⟨decide (exitCode = 0),
      (splitNl stderrBytes).filter (fun line => ! (jsTrim line).isEmpty)⟩

/-- Outcome of `validateFile` instrumented with the list of tiers that
actually ran and the error list passed to `_recreateFileWithErrors`. -/
structure ValidateOutcome where
  result : Bool
  tiersRun : List Nat
  rewroteWith : Option (List Str)
deriving DecidableEq

/-- `validateFile`: tier 1 (`_validateWithKeyFile`), then tier 2
(`_validateWithDesktopAppInfo`), then — only when tier 2 failed asking for
details — tier 3 (`_validateWithDesktopFileValidate`), rewriting the file
with the collected errors on any failure. -/
def validateFile (kf : KeyFileRes) (dai : AppInfoRes) (dfv : LinterRes) :
    ValidateOutcome :=
  if kf.isValid = false then ⟨false, [1], some kf.errors⟩
  else if dai.isValid = false then
    if dai.needDetails then ⟨false, [1, 2, 3], some dfv.errors⟩
    else
      match dai.errors with
      | some errs => ⟨false, [1, 2], some errs⟩
      | none => ⟨false, [1, 2], none⟩
  else ⟨true, [1, 2], none⟩

/-- C8: the validation tiers run in fixed order with short-circuiting — a
tier 1 failure stops after tier 1, the linter runs exactly when tier 1
passed and tier 2 failed needing detailed diagnostics, overall success is
exactly tiers 1 and 2 passing — and linter unavailability yields an error
entry in the result rather than an uncaught exception. -/
theorem c8_validation_tiers (kf : KeyFileRes) (dai : AppInfoRes)
    (dfv : LinterRes) :
    ((validateFile kf dai dfv).tiersRun = [1] ↔ kf.isValid = false) ∧
    (3 ∈ (validateFile kf dai dfv).tiersRun ↔
      (kf.isValid = true ∧ dai.isValid = false ∧ dai.needDetails = true)) ∧
    ((validateFile kf dai dfv).result = true ↔
      (kf.isValid = true ∧ dai.isValid = true)) ∧
    ((validateFile kf dai dfv).tiersRun = [1] ∨
      (validateFile kf dai dfv).tiersRun = [1, 2] ∨
      (validateFile kf dai dfv).tiersRun = [1, 2, 3]) ∧
    validateWithDesktopFileValidate none =
      ⟨false, [str "desktop-file-validate is not available"]⟩ := by
  obtain ⟨kv, ke⟩ := kf
  obtain ⟨dv, dn, de⟩ := dai
  cases kv <;> cases dv <;> cases dn <;> cases de <;>
    simp [validateFile, validateWithDesktopFileValidate]

end EditDesktopFiles
